import Mathlib

/-!
# makeomatic/chat: HTTP push adapter and gRPC session handler

A shallow embedding of `server/push/http/push_http.go` and of the write path
of `server/hdl_grpc.go`, followed by theorems about the embedded code.

Conventions of the embedding

* The package-level variable `handler` is threaded explicitly: every method of
  `httpPush` takes the handler state and returns the new one.
* A Go `map[K]V` is an association list with unique keys; `mapGet` and `mapSet`
  are lookup and (over)write. Ranging over a map visits the list in order.
* A goroutine blocked in `select` is driven by an explicit list of events.
* Collaborators that live outside the two source files (the JSON decoder, the
  user directory, the HTTP client, the transport stream) are parameters.
* A Go `int` is an `Int`; a `t.Uid` (an unsigned 64 bit number) is a `Nat`
  whose zero value is `0`.
* The write task of a session is followed event by event; the read task
  `MessageLoop` beside it appears only through the one thing it does to the
  shared state, the clearing of the transport handle, which is an event of its
  own. The dispatch worker is embedded under one schedule of its delivery tasks.
* `make(chan T, n)` yields a channel of capacity `n` when `n` is within the
  limit of the runtime, a parameter, and panics beyond it.
-/

set_option autoImplicit false

namespace PushHttp

/-! ## Go maps -/

/-- Lookup `m[k]`; `none` stands for the zero value returned on a missing key. -/
def mapGet {V : Type} (m : List (String × V)) (k : String) : Option V :=
  (m.find? (fun e => e.1 == k)).map (fun e => e.2)

/-- Assignment `m[k] = v`: overwrite the entry of `k` or add a new one. -/
def mapSet {V : Type} : List (String × V) → String → V → List (String × V)
  | [], k, v => [(k, v)]
  | e :: rest, k, v => if e.1 == k then (k, v) :: rest else e :: mapSet rest k v

/-- The keys of a map. -/
def mapKeys {V : Type} (m : List (String × V)) : List String :=
  m.map (fun e => e.1)

/-! ## `httpPush.Init`, `IsReady`, `Push` -/

/-- How much to buffer the input channel. -/
def defaultBuffer : Int := 32

/-- A buffered channel as far as the adapter is concerned: its capacity. -/
structure Chan where
  cap : Nat
  deriving DecidableEq, Repr

/-- The handler: `initialized`, `input` and `stop`; a nil channel is `none`. -/
structure httpPush where
  initialized : Bool
  input : Option Chan
  stop : Option Chan
  deriving DecidableEq, Repr

/-- The decoded configuration. -/
structure configType where
  Enabled : Bool
  Buffer : Int
  Url : String
  deriving DecidableEq, Repr

/-- The zero value of `var handler httpPush`. -/
def handlerZero : httpPush := ⟨false, none, none⟩

/-- The panic of `make(chan T, n)` when `n` is more than the runtime can
allocate. -/
def makechanPanic : String :=
  "makechan: size out of range"

/-- What one call of `Init` yields: the handler afterwards, the returned error
(`none` is `nil`, and also stands when the call panics and returns nothing),
the endpoint captured by the dispatch worker when one was spawned, the lines
written to the log, and the panic that ended the call, if any. -/
structure InitOut where
  handler : httpPush
  err : Option String
  worker : Option String
  log : List String
  panicked : Option String
  deriving DecidableEq, Repr

/-- Embedding of `httpPush.Init`. `unmarshal` is `json.Unmarshal` into a fresh
`configType`: either the decoder error text or the decoded configuration.
`chanLimit` is the largest capacity for which the runtime allocates a channel of
`*push.Receipt`; `make` panics beyond it, after `handler.initialized` has been
set. The stop channel of capacity 1 always allocates. -/
def Init (unmarshal : String → Except String configType) (chanLimit : Nat)
    (handler : httpPush) (jsonconf : String) : InitOut :=
  let log := ["Init HTTP push"]
  if handler.initialized then
    ⟨handler, some "already initialized", none, log, none⟩
  else
    match unmarshal jsonconf with
    | .error e => ⟨handler, some ("failed to parse config: " ++ e), none, log, none⟩
    | .ok config =>
      let handler := { handler with initialized := true }
      if !config.Enabled then
        ⟨handler, none, none, log, none⟩
      else
        let config :=
          if config.Buffer ≤ 0 then { config with Buffer := defaultBuffer } else config
        if chanLimit < config.Buffer.toNat then
          ⟨handler, none, none, log, some makechanPanic⟩
        else
          let handler := { handler with input := some ⟨config.Buffer.toNat⟩ }
          let handler := { handler with stop := some ⟨1⟩ }
          ⟨handler, none, some config.Url, log ++ ["Initialized HTTP push"], none⟩

/-- Embedding of `httpPush.IsReady`: `handler.input != nil`. -/
def IsReady (handler : httpPush) : Bool :=
  handler.input.isSome

/-- Embedding of `httpPush.Push`: the input channel, possibly nil. -/
def Push (handler : httpPush) : Option Chan :=
  handler.input

/-- A sequence of `Init` calls, one per configuration string, on the same handler. -/
def InitMany (unmarshal : String → Except String configType) (chanLimit : Nat) :
    httpPush → List String → httpPush
  | handler, [] => handler
  | handler, c :: cs =>
    InitMany unmarshal chanLimit (Init unmarshal chanLimit handler c).handler cs

/-- A small decoder used to exercise the theorems on concrete strings. -/
def sampleUnmarshal (s : String) : Except String configType :=
  if s = "off" then .ok ⟨false, 8, "http://x"⟩
  else if s = "on" then .ok ⟨true, 2, "http://x"⟩
  else if s = "on-default" then .ok ⟨true, 0, "http://x"⟩
  else if s = "on-huge" then .ok ⟨true, 4611686018427387904, "http://x"⟩
  else .error "invalid character"

/-- The channel limit of a 64 bit build with a 48 bit heap: the heap size less
the 96 bytes of the channel header, over the 8 bytes of a pointer. -/
def sampleChanLimit : Nat := 35184372088820

/-! ## `strconv.Itoa` -/

/-- Decimal rendering of a Go `int`, as `strconv.Itoa` produces it: the digits
of the absolute value, most significant first, after a minus sign when the
number is negative. -/
def Itoa (i : Int) : String :=
  if i < 0 then String.mk ('-' :: Nat.toDigits 10 i.natAbs)
  else String.mk (Nat.toDigits 10 i.natAbs)

/-- Value of a decimal digit character. -/
def digitVal (c : Char) : Nat :=
  c.toNat - '0'.toNat

/-- Reading a non-empty run of decimal digits as a natural number. -/
def parseDigits (cs : List Char) : Option Nat :=
  if cs ≠ [] ∧ cs.all Char.isDigit = true then
    some (cs.foldl (fun n c => n * 10 + digitVal c) 0)
  else none

/-- Reading a decimal integer with an optional leading minus sign; `none` when
the text is not such a number. -/
def Atoi (s : String) : Option Int :=
  match s.data with
  | '-' :: cs => Option.map (fun n => -Int.ofNat n) (parseDigits cs)
  | cs => Option.map Int.ofNat (parseDigits cs)

/-! ## Receipts and the notification document -/

/-- A user id `t.Uid`; its zero value is `0`. -/
abbrev Uid := Nat

/-- Modelled from the spec: `push.Recipient`, the per-device delivery descriptor
a receipt carries for one recipient. Its declaration is outside the given
sources; only its identity matters to the adapter. -/
structure Recipient where
  descriptor : Nat
  deriving DecidableEq, Repr

/-- Modelled from the spec: `t.User`, a profile of the user directory. Its
declaration is outside the given sources; the adapter reads only `Id`. -/
structure User where
  Id : String
  profile : Nat
  deriving DecidableEq, Repr

/-- Modelled from the spec: `push.Payload` (topic id, sender id, timestamp,
sequence id, content type, rich content tree, head metadata mapping), with the
field names the adapter uses. Timestamp and content are opaque tokens. -/
structure Payload where
  Topic : String
  From : String
  Timestamp : Nat
  SeqId : Int
  ContentType : String
  Content : Nat
  Head : List (String × String)
  deriving DecidableEq, Repr

/-- Modelled from the spec: `push.Receipt`, the recipient set (a mapping from
recipient id to delivery descriptor, keys unique) and the payload. -/
structure Receipt where
  To : List (Uid × Recipient)
  Payload : Payload
  deriving DecidableEq, Repr

/-- The collaborators of the delivery task that live outside the adapter.
Errors that the adapter discards with `_` are not represented. -/
structure Env where
  /-- The display form of an id, `t.Uid.String`. -/
  uidString : Uid → String
  /-- The parser `t.ParseUserId`. -/
  parseUserId : String → Uid
  /-- The lookup `store.Users.Get`: a pointer to the profile, nil (`none`) when there is none. -/
  usersGet : Uid → Option User
  /-- The batched lookup `store.Users.GetAll`: the profiles found for the given ids. -/
  usersGetAll : List Uid → List User
  /-- The rendering `Timestamp.Format(time.RFC3339)`. -/
  formatRFC3339 : Nat → String
  /-- The renderer `drafty.ToPlainText`. -/
  toPlainText : Nat → String
  /-- The call `http.Post(url, "application/json", body)`: the returned error, `none` for nil. -/
  post : String → String → Option String

/-- A value stored under `"user"` or `"device"` in a recipient entry. -/
inductive Val where
  | user (u : User)
  | device (d : Recipient)
  deriving DecidableEq, Repr

/-- The `recipients` mapping: display id to the entry of that recipient. -/
abbrev Recipients := List (String × List (String × Val))

/-- The map `data` that is serialized: `recipients`, `sender`, `payload`, `head`. -/
structure Document where
  recipients : Recipients
  sender : Option User
  payload : List (String × String)
  head : List (String × String)
  deriving DecidableEq, Repr

/-- Embedding of `messagePayload`. -/
def messagePayload (env : Env) (payload : Payload) : List (String × String) :=
  let data : List (String × String) := []
  let data := mapSet data "topic" (env.uidString (env.parseUserId payload.Topic))
  let data := mapSet data "from" (env.uidString (env.parseUserId payload.From))
  let data := mapSet data "ts" (env.formatRFC3339 payload.Timestamp)
  let data := mapSet data "seq" (Itoa payload.SeqId)
  let data := mapSet data "mime" payload.ContentType
  let data := mapSet data "content" (env.toPlainText payload.Content)
  data

/-- Lines 93 to 96 of `sendPushToHttp`: `make([]t.Uid, len(msg.To))` followed by
one `append` per key of `msg.To`. -/
def recipientsIds (msg : Receipt) : List Uid :=
  msg.To.foldl (fun ids e => ids ++ [e.1]) (List.replicate msg.To.length (0 : Uid))

/-- Lines 107 to 113: one entry `recipients[r.Id] = {"user": r}` per profile. -/
def userEntries (recipientsList : List User) : Recipients :=
  recipientsList.foldl (fun recipients r => mapSet recipients r.Id [("user", Val.user r)]) []

/-- Lines 114 to 116: `recipients[uid.String()]["device"] = to` for every pair of
`msg.To`. The inner map of an id without entry is nil, and assigning into a nil
map panics: that is `none`. -/
def attachDevices (env : Env) : Recipients → List (Uid × Recipient) → Option Recipients
  | recipients, [] => some recipients
  | recipients, (uid, dev) :: rest =>
    match mapGet recipients (env.uidString uid) with
    | none => none
    | some entry =>
      attachDevices env
        (mapSet recipients (env.uidString uid) (mapSet entry "device" (Val.device dev))) rest

/-- How a task ends: it returns, it panics, or it ends the whole process
(`log.Fatal` is a log line followed by `os.Exit(1)`). -/
inductive Outcome where
  | returned
  | panicked (reason : String)
  | exited (status : Nat)
  deriving DecidableEq, Repr

/-- A line written by `log.Print` or `log.Fatal` in `sendPushToHttp`. -/
inductive LogLine where
  | prepare (sender : String)
  | sent (senderId : String) (ids : List Uid)
  | fatal (err : String)
  deriving DecidableEq, Repr

/-- Everything observable of one run of `sendPushToHttp`. -/
structure Delivery where
  outcome : Outcome
  /-- The ids handed to `store.Users.GetAll`. -/
  getAllArgs : List Uid
  /-- The map `data`, once it has been built. -/
  document : Option Document
  /-- Endpoint of the `http.Post` call, once it has been made. -/
  posted : Option String
  log : List LogLine
  deriving DecidableEq, Repr

/-- Embedding of `sendPushToHttp`. -/
def sendPushToHttp (env : Env) (marshal : Document → String) (msg : Receipt)
    (url : String) : Delivery :=
  let log := [LogLine.prepare msg.Payload.From]
  let ids := recipientsIds msg
  let sender := env.usersGet (env.parseUserId msg.Payload.From)
  let recipientsList := env.usersGetAll ids
  match attachDevices env (userEntries recipientsList) msg.To with
  | none => ⟨.panicked "assignment to entry in nil map", ids, none, none, log⟩
  | some recipients =>
    let data : Document :=
      ⟨recipients, sender, messagePayload env msg.Payload, msg.Payload.Head⟩
    let requestData := marshal data
    match sender with
    | none => ⟨.panicked "nil pointer dereference", ids, some data, none, log⟩
    | some s =>
      let log := log ++ [LogLine.sent s.Id ids]
      match env.post url requestData with
      | some err => ⟨.exited 1, ids, some data, some url, log ++ [LogLine.fatal err]⟩
      | none => ⟨.returned, ids, some data, some url, log⟩

/-! ## The dispatch worker spawned by `Init` -/

/-- What the `select` of the dispatch worker receives. -/
inductive WorkerEv where
  | receipt (msg : Receipt)
  | stop
  deriving DecidableEq, Repr

/-- A run of the dispatch worker: the delivery tasks it started, whether the
worker loop is still running and whether the process is still alive. -/
structure WorkerRun where
  deliveries : List Delivery
  workerRunning : Bool
  processAlive : Bool
  deriving DecidableEq, Repr

/-- Embedding of the goroutine of `Init`, under the schedule in which every
delivery task `go sendPushToHttp(msg, config.Url)` has finished before the worker
takes its next event. A delivery task that panics or calls `log.Fatal` ends the
process, and with it the worker. -/
def dispatchWorker (env : Env) (marshal : Document → String) (url : String) :
    List WorkerEv → WorkerRun
  | [] => ⟨[], true, true⟩
  | .stop :: _ => ⟨[], false, true⟩
  | .receipt msg :: rest =>
    let d := sendPushToHttp env marshal msg url
    match d.outcome with
    | .returned =>
      let r := dispatchWorker env marshal url rest
      { r with deliveries := d :: r.deliveries }
    | _ => ⟨[d], false, false⟩

/-- A directory with the profiles of the users 5, 7 and 9 and nothing else, and
an endpoint that is reachable exactly when it is `http://x`. -/
def sampleEnv : Env where
  uidString := fun u => String.mk ('u' :: Nat.toDigits 10 u)
  parseUserId := fun s => if s = "u9" then 9 else if s = "u5" then 5 else 0
  usersGet := fun u =>
    if u = 5 ∨ u = 7 ∨ u = 9 then some ⟨String.mk ('u' :: Nat.toDigits 10 u), u⟩ else none
  usersGetAll := fun ids =>
    (ids.filter (fun u => u = 5 ∨ u = 7 ∨ u = 9)).map
      (fun u => ⟨String.mk ('u' :: Nat.toDigits 10 u), u⟩)
  formatRFC3339 := fun _ => "2018-01-01T00:00:00Z"
  toPlainText := fun _ => "hello"
  post := fun url _ => if url = "http://x" then none else some "connection refused"

/-- A stand-in for `json.Marshal`. -/
def sampleMarshal (d : Document) : String :=
  String.intercalate "," (mapKeys d.recipients)

/-- A receipt from user 9 to the users 5 and 7. -/
def sampleReceipt : Receipt :=
  ⟨[(5, ⟨50⟩), (7, ⟨70⟩)], ⟨"u9", "u9", 0, 12, "text/plain", 0, [("k", "v")]⟩⟩

/-- A receipt from user 9 to user 5 alone. -/
def singleReceipt : Receipt :=
  ⟨[(5, ⟨50⟩)], ⟨"u9", "u9", 0, 13, "text/plain", 0, []⟩⟩

/-- A receipt from user 9 to the users 5 and 6; the directory has no profile of 6. -/
def orphanReceipt : Receipt :=
  ⟨[(5, ⟨50⟩), (6, ⟨60⟩)], ⟨"u9", "u9", 0, 14, "text/plain", 0, []⟩⟩

end PushHttp

namespace HdlGrpc

/-! ## The session and the write path of `hdl_grpc.go` -/

/-- Modelled from the spec: the protocol kind of a session. The declaration is
outside the given sources; `hdl_grpc.go` names `GRPC` and refers to the
websocket and long polling handlers. -/
inductive Proto where
  | GRPC
  | WEBSOCK
  | LPOLL
  deriving DecidableEq, Repr

/-- A message of the canonical outbound type `*pbx.ServerMsg`, as a token. -/
abbrev ServerMsg := Nat

/-- A value of type `interface{}` travelling on `sess.send` or `sess.stop`: the
nil interface, a `*pbx.ServerMsg`, or a value of some other dynamic type. -/
inductive Msg where
  | nil
  | serverMsg (m : ServerMsg)
  | other (tag : Nat)
  deriving DecidableEq, Repr

/-- Modelled from the spec: the fields of `Session` that `hdl_grpc.go` touches:
the session id, the protocol kind and the transport handle `grpcnode`
(`none` is nil). The three channels are the event list driving the loop. -/
structure Session where
  sid : String
  proto : Proto
  grpcnode : Option Nat
  deriving DecidableEq, Repr

/-- Only a gRPC session holds a stream in `grpcnode`: the field is filled when
the session is made from the stream of `MessageLoop`, and a session of another
protocol kind has it nil. -/
def Session.wellFormed (s : Session) : Prop :=
  s.grpcnode ≠ none → s.proto = Proto.GRPC

instance (s : Session) : Decidable s.wellFormed :=
  inferInstanceAs (Decidable (s.grpcnode ≠ none → s.proto = Proto.GRPC))

/-- The session together with what the write task has done so far: the
messages handed to `out.Send`, oldest first, the topics handed to
`sess.delSub`, and the log. -/
structure World where
  sess : Session
  sent : List ServerMsg
  unsubscribed : List String
  log : List String
  deriving DecidableEq, Repr

/-- What happens to the write task between two rounds of its loop: what its
`select` receives, or the read task clearing the handle beside it. An event
that may lead to a call of `out.Send` carries the error that call returns
(`none` is nil). -/
inductive Ev where
  /-- A message `msg` received from `sess.send` with `ok` true. -/
  | queueMsg (msg : Msg) (sendErr : Option String)
  /-- The receive from `sess.send` reports a closed channel. -/
  | queueClosed
  /-- A value received from `sess.stop`; `Msg.nil` when there is no final message. -/
  | stop (msg : Msg) (sendErr : Option String)
  /-- A topic received from `sess.detach`. -/
  | detach (topic : String)
  /-- The deferred `sess.closeGrpc()` of `MessageLoop` runs in the read task
  (end of stream or receive error) while the write task is still in its loop. A
  clearing that falls between the read of `sess.grpcnode` and `out.Send` inside
  `grpcWrite` acts as one placed after that send. -/
  | readerClosed
  deriving DecidableEq, Repr

/-- How the write task stands after the events: it has returned, it has
panicked, or it is still in the loop waiting for the next event. -/
inductive Exit where
  | returned
  | panicked (reason : String)
  | waiting
  deriving DecidableEq, Repr

/-- Whether the write task is over, by return or by panic. -/
def Exit.terminated : Exit → Bool
  | .waiting => false
  | _ => true

/-- The runtime error of a failed type assertion `msg.(*pbx.ServerMsg)`. -/
def typeAssertionPanic : String :=
  "interface conversion: interface is not *pbx.ServerMsg"

/-- Embedding of `Session.closeGrpc`; the lock is immaterial in a single task. -/
def closeGrpc (w : World) : World :=
  if w.sess.proto = Proto.GRPC then
    { w with sess := { w.sess with grpcnode := none } }
  else w

/-- Embedding of `grpcWrite`. The result is `.error` when the type assertion
`msg.(*pbx.ServerMsg)` panics, else `.ok` of the returned error. `sendErr` is
what `out.Send` answers when it is called. -/
def grpcWrite (w : World) (msg : Msg) (sendErr : Option String) :
    World × Except String (Option String) :=
  match w.sess.grpcnode with
  | some _ =>
    match msg with
    | .serverMsg m => ({ w with sent := w.sent ++ [m] }, .ok sendErr)
    | _ => (w, .error typeAssertionPanic)
  | none => (w, .ok none)

/-- The select loop of `writeGrpcLoop`, without the deferred call. -/
def writeLoop : World → List Ev → World × Exit
  | w, [] => (w, .waiting)
  | w, .queueMsg msg sendErr :: rest =>
    match grpcWrite w msg sendErr with
    | (w1, .error reason) => (w1, .panicked reason)
    | (w1, .ok (some err)) =>
      ({ w1 with log := w1.log ++ ["grpc: write " ++ w1.sess.sid ++ " " ++ err] }, .returned)
    | (w1, .ok none) => writeLoop w1 rest
  | w, .queueClosed :: _ => (w, .returned)
  | w, .stop msg sendErr :: _ =>
    if msg ≠ Msg.nil then
      match grpcWrite w msg sendErr with
      | (w1, .error reason) => (w1, .panicked reason)
      | (w1, .ok _) => (w1, .returned)
    else (w, .returned)
  | w, .detach topic :: rest =>
    writeLoop { w with unsubscribed := w.unsubscribed ++ [topic] } rest
  | w, .readerClosed :: rest => writeLoop (closeGrpc w) rest

/-- Embedding of `Session.writeGrpcLoop`: the loop, then the deferred
`sess.closeGrpc()`, which runs when the function returns and when it panics. -/
def writeGrpcLoop (w : World) (evs : List Ev) : World × Exit :=
  match writeLoop w evs with
  | (w1, .waiting) => (w1, .waiting)
  | (w1, e) => (closeGrpc w1, e)

/-! ## The wording of the outbound ordering property -/

/-- The canonical message an event takes from the outbound queue, if any. -/
def Ev.queued : Ev → Option ServerMsg
  | .queueMsg (.serverMsg m) _ => some m
  | _ => none

/-- The message an event takes from the outbound queue, of whatever type. -/
def Ev.queuedAny : Ev → Option Msg
  | .queueMsg msg _ => some msg
  | _ => none

/-- Terminating events as the property names them: the queue is closed, the
stop slot fires, or a send returns an error. -/
def Ev.terminatingAsStated : Ev → Bool
  | .queueClosed => true
  | .stop _ _ => true
  | .queueMsg _ sendErr => sendErr.isSome
  | .detach _ => false
  | .readerClosed => false

/-- Terminating events of the code with the transport handle present: those
named by the property, and a queue message that is not a `*pbx.ServerMsg`, on
which the write task panics. -/
def Ev.terminating : Ev → Bool
  | .queueClosed => true
  | .stop _ _ => true
  | .queueMsg (.serverMsg _) sendErr => sendErr.isSome
  | .queueMsg _ _ => true
  | .detach _ => false
  | .readerClosed => false

/-- The events that reach the write task while the read task has not yet
cleared the handle: those before the first `readerClosed`. -/
def beforeReaderClose : List Ev → List Ev
  | [] => []
  | .readerClosed :: _ => []
  | e :: rest => e :: beforeReaderClose rest

/-- The queue messages the write task hands to the transport when the handle is
present, spelled out over the events: the canonical queue messages before the
first terminating event, in order, and after them the message whose send
returns an error when that is how the task ends. -/
def expectedQueueSends (evs : List Ev) : List ServerMsg :=
  (evs.takeWhile (fun e => !e.terminating)).filterMap Ev.queued ++
    (match (evs.dropWhile (fun e => !e.terminating)).head? with
     | some (.queueMsg (.serverMsg m) _) => [m]
     | _ => [])

/-- The final message of the stop slot, when the first terminating event is a
stop that carries a canonical message. -/
def expectedFinalSend (evs : List Ev) : List ServerMsg :=
  match (evs.dropWhile (fun e => !e.terminating)).head? with
  | some (.stop (.serverMsg m) _) => [m]
  | _ => []

/-- The queue messages the wording of the property asks for, with only the
three terminating events it lists: every queue message before the first of
them, and the message of a failed send. -/
def statedQueueSends (evs : List Ev) : List Msg :=
  (evs.takeWhile (fun e => !e.terminatingAsStated)).filterMap Ev.queuedAny ++
    (match (evs.dropWhile (fun e => !e.terminatingAsStated)).head? with
     | some (.queueMsg msg _) => [msg]
     | _ => [])

/-- A gRPC session with its stream attached and nothing done yet. -/
def sampleWorld : World :=
  ⟨⟨"sid1", Proto.GRPC, some 1⟩, [], [], []⟩

/-- A gRPC session whose transport handle has already been cleared. -/
def closedWorld : World :=
  ⟨⟨"sid1", Proto.GRPC, none⟩, [], [], []⟩

/-- A websocket session; it holds no stream in `grpcnode`. -/
def websockWorld : World :=
  ⟨⟨"sid2", Proto.WEBSOCK, none⟩, [], [], []⟩

/-- A queue during which the read task clears the handle after the first message. -/
def droppedQueue : List Ev :=
  [Ev.queueMsg (Msg.serverMsg 1) none, Ev.readerClosed,
   Ev.queueMsg (Msg.serverMsg 2) none, Ev.queueClosed]

/-- A queue with a message of a foreign type between two canonical ones. -/
def mixedQueue : List Ev :=
  [Ev.queueMsg (Msg.serverMsg 1) none, Ev.queueMsg (Msg.other 0) none,
   Ev.queueMsg (Msg.serverMsg 2) none, Ev.queueClosed]

end HdlGrpc

/-! # Theorems -/

namespace PushHttp

/-! ## Initialization -/

theorem Init_of_initialized (unmarshal : String → Except String configType)
    (chanLimit : Nat) (h : httpPush) (conf : String) (hinit : h.initialized = true) :
    Init unmarshal chanLimit h conf
      = ⟨h, some "already initialized", none, ["Init HTTP push"], none⟩ := by
  simp [Init, hinit]

theorem Init_success_initialized (unmarshal : String → Except String configType)
    (chanLimit : Nat) (h : httpPush) (conf : String)
    (hok : (Init unmarshal chanLimit h conf).err = none) :
    (Init unmarshal chanLimit h conf).handler.initialized = true := by
  unfold Init at hok ⊢
  by_cases hi : h.initialized = true
  · simp [hi] at hok
  · simp only [hi] at hok ⊢
    cases hu : unmarshal conf with
    | error e => simp [hu] at hok
    | ok cfg =>
      by_cases he : cfg.Enabled = true
      · simp only [he, Bool.not_true, Bool.false_eq_true, if_false]
        (repeat' split) <;> rfl
      · simp [he]

theorem InitMany_of_initialized (unmarshal : String → Except String configType)
    (chanLimit : Nat) (h : httpPush) (hinit : h.initialized = true) (confs : List String) :
    InitMany unmarshal chanLimit h confs = h := by
  induction confs with
  | nil => rfl
  | cons c cs ih => simp [InitMany, Init_of_initialized unmarshal chanLimit h c hinit, ih]

/-- C1: once a call of `Init` has succeeded, every further call of `Init`, with
any configuration string, returns the error "already initialized", leaves the
handler (initialized flag, receipt queue, stop signal) exactly as the first
call left it, and spawns no worker. -/
theorem Init_twice_already_initialized (unmarshal : String → Except String configType)
    (chanLimit : Nat) (h0 : httpPush) (conf1 conf2 : String)
    (hfirst : (Init unmarshal chanLimit h0 conf1).err = none) :
    (Init unmarshal chanLimit (Init unmarshal chanLimit h0 conf1).handler conf2).err
        = some "already initialized" ∧
      (Init unmarshal chanLimit (Init unmarshal chanLimit h0 conf1).handler conf2).handler
        = (Init unmarshal chanLimit h0 conf1).handler ∧
      (Init unmarshal chanLimit (Init unmarshal chanLimit h0 conf1).handler conf2).worker
        = none ∧
      (Init unmarshal chanLimit (Init unmarshal chanLimit h0 conf1).handler conf2).panicked
        = none := by
  have hi := Init_success_initialized unmarshal chanLimit h0 conf1 hfirst
  rw [Init_of_initialized unmarshal chanLimit _ conf2 hi]
  exact ⟨rfl, rfl, rfl, rfl⟩

theorem Init_twice_already_initialized_witness :
    (Init sampleUnmarshal sampleChanLimit handlerZero "on").err = none ∧
      (Init sampleUnmarshal sampleChanLimit
        (Init sampleUnmarshal sampleChanLimit handlerZero "on").handler "garbage").err
        = some "already initialized" ∧
      (Init sampleUnmarshal sampleChanLimit
        (Init sampleUnmarshal sampleChanLimit handlerZero "on").handler "garbage").handler
        = ⟨true, some ⟨2⟩, some ⟨1⟩⟩ :=
  ⟨by decide,
   (Init_twice_already_initialized sampleUnmarshal sampleChanLimit handlerZero "on" "garbage"
      (by decide)).1,
   by decide⟩

/-- C2: from the uninitialized handler, `Init` with a well-formed configuration
whose `enabled` is false returns no error, does not panic and spawns no worker;
`IsReady` is false and `Push` is nil, and both stay so after any further
sequence of `Init` calls with any configurations. -/
theorem Init_disabled_never_ready (unmarshal : String → Except String configType)
    (chanLimit : Nat) (conf : String) (cfg : configType) (confs : List String)
    (hok : unmarshal conf = .ok cfg) (hoff : cfg.Enabled = false) :
    (Init unmarshal chanLimit handlerZero conf).err = none ∧
      (Init unmarshal chanLimit handlerZero conf).panicked = none ∧
      (Init unmarshal chanLimit handlerZero conf).worker = none ∧
      IsReady (Init unmarshal chanLimit handlerZero conf).handler = false ∧
      Push (Init unmarshal chanLimit handlerZero conf).handler = none ∧
      IsReady (InitMany unmarshal chanLimit
        (Init unmarshal chanLimit handlerZero conf).handler confs) = false ∧
      Push (InitMany unmarshal chanLimit
        (Init unmarshal chanLimit handlerZero conf).handler confs) = none := by
  have hout : Init unmarshal chanLimit handlerZero conf
      = ⟨⟨true, none, none⟩, none, none, ["Init HTTP push"], none⟩ := by
    simp [Init, handlerZero, hok, hoff]
  rw [hout, InitMany_of_initialized unmarshal chanLimit _ rfl confs]
  simp [IsReady, Push]

theorem Init_disabled_never_ready_witness :
    sampleUnmarshal "off" = .ok ⟨false, 8, "http://x"⟩ ∧
      IsReady (InitMany sampleUnmarshal sampleChanLimit
        (Init sampleUnmarshal sampleChanLimit handlerZero "off").handler
        ["on", "garbage", "on-default"]) = false ∧
      Push (InitMany sampleUnmarshal sampleChanLimit
        (Init sampleUnmarshal sampleChanLimit handlerZero "off").handler
        ["on", "garbage", "on-default"]) = none :=
  ⟨by rfl,
   (Init_disabled_never_ready sampleUnmarshal sampleChanLimit "off" ⟨false, 8, "http://x"⟩
      ["on", "garbage", "on-default"] (by rfl) rfl).2.2.2.2.2.1,
   (Init_disabled_never_ready sampleUnmarshal sampleChanLimit "off" ⟨false, 8, "http://x"⟩
      ["on", "garbage", "on-default"] (by rfl) rfl).2.2.2.2.2.2⟩

theorem Init_enabled_eq (unmarshal : String → Except String configType)
    (chanLimit : Nat) (conf : String) (cfg : configType)
    (hok : unmarshal conf = .ok cfg) (hon : cfg.Enabled = true) :
    Init unmarshal chanLimit handlerZero conf
      = if chanLimit < (if 0 < cfg.Buffer then cfg.Buffer.toNat else 32) then
          ⟨⟨true, none, none⟩, none, none, ["Init HTTP push"], some makechanPanic⟩
        else
          ⟨⟨true, some ⟨if 0 < cfg.Buffer then cfg.Buffer.toNat else 32⟩, some ⟨1⟩⟩, none,
            some cfg.Url, ["Init HTTP push", "Initialized HTTP push"], none⟩ := by
  by_cases hb : cfg.Buffer ≤ 0
  · have hnb : ¬ 0 < cfg.Buffer := by omega
    simp [Init, handlerZero, hok, hon, hb, hnb, defaultBuffer]
  · have hpos : 0 < cfg.Buffer := by omega
    simp [Init, handlerZero, hok, hon, hb, hpos]

/-- C9 (as stated, refuted): with a well-formed configuration whose `enabled` is
true and whose buffer is 2^62, `make` panics on the receipt queue: `Init` does
not return, `IsReady` stays false and `Push` nil, no worker is spawned, and the
handler is left with its initialized flag set. -/
theorem Init_huge_buffer_panics :
    sampleUnmarshal "on-huge" = .ok ⟨true, 2 ^ 62, "http://x"⟩ ∧
      (Init sampleUnmarshal sampleChanLimit handlerZero "on-huge").panicked
        = some makechanPanic ∧
      IsReady (Init sampleUnmarshal sampleChanLimit handlerZero "on-huge").handler = false ∧
      Push (Init sampleUnmarshal sampleChanLimit handlerZero "on-huge").handler = none ∧
      (Init sampleUnmarshal sampleChanLimit handlerZero "on-huge").worker = none ∧
      (Init sampleUnmarshal sampleChanLimit handlerZero "on-huge").handler.initialized
        = true := by
  refine ⟨by rfl, ?_, ?_, ?_, ?_, ?_⟩ <;> decide

/-- C9 (amended): from the uninitialized handler, for every well-formed
configuration with `enabled` true whose queue capacity (the configured buffer
when positive, the default 32 when it is zero, as an absent option decodes, or
negative) is within what the runtime allocates, `Init` returns no error and
does not panic, `IsReady` becomes true and `Push` non-nil, the worker is
spawned on the configured endpoint, the receipt queue has that capacity and the
stop signal capacity 1. Beyond that limit `make` panics and the backend is not
ready. -/
theorem Init_enabled_ready (unmarshal : String → Except String configType)
    (chanLimit : Nat) (conf : String) (cfg : configType)
    (hok : unmarshal conf = .ok cfg) (hon : cfg.Enabled = true) :
    ((if 0 < cfg.Buffer then cfg.Buffer.toNat else 32) ≤ chanLimit →
      (Init unmarshal chanLimit handlerZero conf).err = none ∧
      (Init unmarshal chanLimit handlerZero conf).panicked = none ∧
      IsReady (Init unmarshal chanLimit handlerZero conf).handler = true ∧
      Push (Init unmarshal chanLimit handlerZero conf).handler ≠ none ∧
      (Init unmarshal chanLimit handlerZero conf).worker = some cfg.Url ∧
      (0 < cfg.Buffer →
        ∃ c, (Init unmarshal chanLimit handlerZero conf).handler.input = some c ∧
          (c.cap : Int) = cfg.Buffer) ∧
      (cfg.Buffer ≤ 0 →
        (Init unmarshal chanLimit handlerZero conf).handler.input = some ⟨32⟩) ∧
      (Init unmarshal chanLimit handlerZero conf).handler.stop = some ⟨1⟩) ∧
    (chanLimit < (if 0 < cfg.Buffer then cfg.Buffer.toNat else 32) →
      (Init unmarshal chanLimit handlerZero conf).panicked = some makechanPanic ∧
      IsReady (Init unmarshal chanLimit handlerZero conf).handler = false ∧
      (Init unmarshal chanLimit handlerZero conf).worker = none) := by
  rw [Init_enabled_eq unmarshal chanLimit conf cfg hok hon]
  constructor
  · intro hfit
    rw [if_neg (by omega)]
    refine ⟨rfl, rfl, rfl, by simp [Push], rfl, ?_, ?_, rfl⟩
    · intro hpos
      refine ⟨_, rfl, ?_⟩
      simp only [hpos, if_true]
      omega
    · intro hle
      have hnb : ¬ 0 < cfg.Buffer := by omega
      simp only [hnb, if_false]
  · intro hbig
    rw [if_pos hbig]
    exact ⟨rfl, rfl, rfl⟩

theorem Init_enabled_ready_witness :
    sampleUnmarshal "on" = .ok ⟨true, 2, "http://x"⟩ ∧
      IsReady (Init sampleUnmarshal sampleChanLimit handlerZero "on").handler = true ∧
      (Init sampleUnmarshal sampleChanLimit handlerZero "on").handler.input = some ⟨2⟩ ∧
      (Init sampleUnmarshal sampleChanLimit handlerZero "on-default").handler.input
        = some ⟨32⟩ ∧
      (Init sampleUnmarshal sampleChanLimit handlerZero "on-huge").panicked
        = some makechanPanic :=
  ⟨by rfl,
   ((Init_enabled_ready sampleUnmarshal sampleChanLimit "on" ⟨true, 2, "http://x"⟩
      (by rfl) rfl).1 (by decide)).2.2.1,
   by decide,
   ((Init_enabled_ready sampleUnmarshal sampleChanLimit "on-default" ⟨true, 0, "http://x"⟩
      (by rfl) rfl).1 (by decide)).2.2.2.2.2.2.1 (by decide),
   ((Init_enabled_ready sampleUnmarshal sampleChanLimit "on-huge" ⟨true, 2 ^ 62, "http://x"⟩
      (by rfl) rfl).2 (by decide)).1⟩

/-! ## The delivery task -/

theorem foldl_append_key (l : List (Uid × Recipient)) (acc : List Uid) :
    l.foldl (fun ids e => ids ++ [e.1]) acc = acc ++ l.map Prod.fst := by
  induction l generalizing acc with
  | nil => simp
  | cons e rest ih => simp [ih]

theorem recipientsIds_eq (msg : Receipt) :
    recipientsIds msg = List.replicate msg.To.length (0 : Uid) ++ msg.To.map Prod.fst := by
  unfold recipientsIds
  exact foldl_append_key msg.To _

theorem recipientsIds_length (msg : Receipt) :
    (recipientsIds msg).length = 2 * msg.To.length := by
  rw [recipientsIds_eq]; simp; omega

theorem getAllArgs_eq (env : Env) (marshal : Document → String) (msg : Receipt)
    (url : String) :
    (sendPushToHttp env marshal msg url).getAllArgs = recipientsIds msg := by
  unfold sendPushToHttp
  simp only []
  split
  · rfl
  · split
    · rfl
    · split <;> rfl

/-- C10 (evaluation at the failing input): for the receipt with the single
recipient 5 the list handed to the batched lookup is `[0, 5]`: it has two
elements for one recipient, and its first element is the zero id, which is not
a recipient of the receipt. -/
theorem getAll_receives_zero_ids :
    (sendPushToHttp sampleEnv sampleMarshal singleReceipt "http://x").getAllArgs = [0, 5] ∧
      singleReceipt.To.length = 1 ∧
      (0 : Uid) ∉ singleReceipt.To.map Prod.fst := by
  decide

theorem post_error_never_returns (env : Env) (marshal : Document → String) (msg : Receipt)
    (url : String) (hfail : ∀ body, env.post url body ≠ none) :
    (sendPushToHttp env marshal msg url).outcome ≠ Outcome.returned := by
  unfold sendPushToHttp
  simp only []
  split
  · simp
  · split
    · simp
    · split
      · simp
      · rename_i hpost
        exact absurd hpost (hfail _)

/-- C3 (evaluation at the failing input): when the endpoint is unreachable the
delivery task of a well-formed receipt does not return: it logs the failure
with `log.Fatal` and exits the process with status 1. The dispatch worker that
had two receipts to process is gone after the first, and the second receipt is
never delivered. -/
theorem delivery_failure_exits_process :
    (sendPushToHttp sampleEnv sampleMarshal sampleReceipt "http://down").outcome
        = Outcome.exited 1 ∧
      (sendPushToHttp sampleEnv sampleMarshal sampleReceipt "http://down").log.getLast?
        = some (LogLine.fatal "connection refused") ∧
      (dispatchWorker sampleEnv sampleMarshal "http://down"
        [.receipt sampleReceipt, .receipt singleReceipt]).processAlive = false ∧
      (dispatchWorker sampleEnv sampleMarshal "http://down"
        [.receipt sampleReceipt, .receipt singleReceipt]).workerRunning = false ∧
      (dispatchWorker sampleEnv sampleMarshal "http://down"
        [.receipt sampleReceipt, .receipt singleReceipt]).deliveries.length = 1 ∧
      (dispatchWorker sampleEnv sampleMarshal "http://x"
        [.receipt sampleReceipt, .receipt singleReceipt]).deliveries.length = 2 := by
  decide

/-! ### The recipients mapping -/

theorem mapGet_nil {V : Type} (k : String) : mapGet ([] : List (String × V)) k = none := rfl

theorem mapGet_cons {V : Type} (e : String × V) (m : List (String × V)) (k : String) :
    mapGet (e :: m) k = if e.1 = k then some e.2 else mapGet m k := by
  unfold mapGet
  rw [List.find?_cons]
  by_cases h : e.1 = k
  · have hb : (e.1 == k) = true := by simp [h]
    simp [hb, h]
  · have hb : (e.1 == k) = false := by simp [h]
    simp [hb, h]

theorem mapGet_eq_none_iff {V : Type} (m : List (String × V)) (k : String) :
    mapGet m k = none ↔ k ∉ mapKeys m := by
  induction m with
  | nil => simp [mapGet_nil, mapKeys]
  | cons e rest ih =>
    rw [mapGet_cons]
    by_cases h : e.1 = k
    · subst h
      simp [mapKeys]
    · have h2 : ¬ k = e.1 := fun hk => h hk.symm
      simp only [h, if_false, ih]
      simp [mapKeys, h2]

theorem mapKeys_mapSet_of_mem {V : Type} (m : List (String × V)) (k : String) (v : V)
    (hk : k ∈ mapKeys m) : mapKeys (mapSet m k v) = mapKeys m := by
  induction m with
  | nil => simp [mapKeys] at hk
  | cons e rest ih =>
    unfold mapSet
    by_cases h : e.1 = k
    · simp [h, mapKeys]
    · have h2 : ¬ k = e.1 := fun hk => h hk.symm
      have hrest : k ∈ mapKeys rest := by
        simpa [mapKeys, h2] using hk
      have := ih hrest
      simp only [mapKeys] at this ⊢
      simp [h, this]

theorem mapSet_of_not_mem {V : Type} (m : List (String × V)) (k : String) (v : V)
    (hk : k ∉ mapKeys m) : mapSet m k v = m ++ [(k, v)] := by
  induction m with
  | nil => rfl
  | cons e rest ih =>
    have h : ¬ e.1 = k := by
      intro h; apply hk; subst h; simp [mapKeys]
    have hrest : k ∉ mapKeys rest := by
      intro h2; apply hk; simp only [mapKeys, List.map_cons, List.mem_cons]; exact Or.inr h2
    unfold mapSet
    simp [h, ih hrest]

theorem mapGet_mapSet {V : Type} (m : List (String × V)) (k k2 : String) (v : V) :
    mapGet (mapSet m k v) k2 = if k = k2 then some v else mapGet m k2 := by
  induction m with
  | nil => simp [mapSet, mapGet_cons, mapGet_nil]
  | cons e rest ih =>
    unfold mapSet
    by_cases h : e.1 = k
    · simp only [h, beq_self_eq_true, if_true, mapGet_cons]
      by_cases h2 : k = k2 <;> simp [h2]
    · simp only [beq_iff_eq, h, if_false, mapGet_cons, ih]
      by_cases h2 : e.1 = k2
      · have h3 : ¬ k = k2 := fun hk => h (h2.trans hk.symm)
        simp [h2, h3]
      · simp [h2]

theorem userEntries_foldl (l : List User) :
    ∀ acc : Recipients, (l.map User.Id).Nodup → (∀ r ∈ l, r.Id ∉ mapKeys acc) →
      l.foldl (fun recipients r => mapSet recipients r.Id [("user", Val.user r)]) acc
        = acc ++ l.map (fun r => (r.Id, [("user", Val.user r)])) := by
  induction l with
  | nil => intro acc _ _; simp
  | cons r rest ih =>
    intro acc hnd hdis
    have hnd2 := List.nodup_cons.mp hnd
    have hr : r.Id ∉ mapKeys acc := hdis r (List.mem_cons_self _ _)
    simp only [List.foldl_cons, mapSet_of_not_mem acc r.Id _ hr]
    rw [ih _ hnd2.2]
    · simp
    · intro q hq hmem
      simp only [mapKeys, List.map_append, List.map_cons, List.map_nil, List.mem_append,
        List.mem_singleton] at hmem
      rcases hmem with hmem | hmem
      · exact hdis q (List.mem_cons_of_mem _ hq) hmem
      · exact hnd2.1 (hmem ▸ List.mem_map_of_mem User.Id hq)

theorem userEntries_eq (l : List User) (hnd : (l.map User.Id).Nodup) :
    userEntries l = l.map (fun r => (r.Id, [("user", Val.user r)])) := by
  unfold userEntries
  rw [userEntries_foldl l [] hnd (by intro r _; simp [mapKeys])]
  simp

theorem mapGet_userEntries (l : List User) (hnd : (l.map User.Id).Nodup) (r : User)
    (hr : r ∈ l) :
    mapGet (l.map (fun r => (r.Id, [("user", Val.user r)]))) r.Id
      = some [("user", Val.user r)] := by
  induction l with
  | nil => simp at hr
  | cons a rest ih =>
    have hnd2 := List.nodup_cons.mp hnd
    simp only [List.map_cons, mapGet_cons]
    rcases List.mem_cons.mp hr with rfl | hmem
    · simp
    · have hne : ¬ a.Id = r.Id := by
        intro h
        exact hnd2.1 (h ▸ List.mem_map_of_mem User.Id hmem)
      simp only [hne, if_false]
      exact ih hnd2.2 hmem

theorem attachDevices_spec (env : Env) (l : List (Uid × Recipient)) :
    ∀ recs : Recipients, (∀ p ∈ l, env.uidString p.1 ∈ mapKeys recs) →
      (l.map (fun p => env.uidString p.1)).Nodup →
      ∃ out, attachDevices env recs l = some out ∧ mapKeys out = mapKeys recs ∧
        (∀ p ∈ l, mapGet out (env.uidString p.1)
          = (mapGet recs (env.uidString p.1)).map
              (fun e => mapSet e "device" (Val.device p.2))) ∧
        (∀ k, k ∉ l.map (fun p => env.uidString p.1) → mapGet out k = mapGet recs k) := by
  induction l with
  | nil => intro recs _ _; exact ⟨recs, rfl, rfl, by simp, by simp⟩
  | cons p rest ih =>
    intro recs hkeys hnd
    obtain ⟨uid, dev⟩ := p
    have hnd2 := List.nodup_cons.mp hnd
    have hp : env.uidString uid ∈ mapKeys recs := hkeys (uid, dev) (List.mem_cons_self _ _)
    obtain ⟨e, he⟩ : ∃ e, mapGet recs (env.uidString uid) = some e := by
      cases hg : mapGet recs (env.uidString uid) with
      | none => exact absurd hp ((mapGet_eq_none_iff _ _).mp hg)
      | some e => exact ⟨e, rfl⟩
    have hk1 : mapKeys (mapSet recs (env.uidString uid) (mapSet e "device" (Val.device dev)))
        = mapKeys recs := mapKeys_mapSet_of_mem _ _ _ hp
    obtain ⟨out, hout, hkout, hin, hnot⟩ :=
      ih (mapSet recs (env.uidString uid) (mapSet e "device" (Val.device dev)))
        (by intro q hq; rw [hk1]; exact hkeys q (List.mem_cons_of_mem _ hq)) hnd2.2
    refine ⟨out, ?_, hkout.trans hk1, ?_, ?_⟩
    · simp only [attachDevices, he, hout]
    · intro q hq
      rcases List.mem_cons.mp hq with rfl | hmem
      · rw [hnot _ hnd2.1, mapGet_mapSet, he]
        simp
      · have hne : ¬ env.uidString uid = env.uidString q.1 := by
          intro h
          apply hnd2.1
          show env.uidString uid ∈ rest.map (fun p => env.uidString p.1)
          rw [h]
          exact List.mem_map_of_mem (fun p => env.uidString p.1) hmem
        rw [hin q hmem, mapGet_mapSet]
        simp only [hne, if_false]
    · intro k hk
      have hk2 : k ∉ rest.map (fun p => env.uidString p.1) := by
        intro h; exact hk (List.mem_cons_of_mem _ h)
      have hne : ¬ env.uidString uid = k := by
        intro h; apply hk; simp [← h]
      rw [hnot k hk2, mapGet_mapSet]
      simp only [hne, if_false]

/-- When the directory answers the batched lookup with exactly one profile per
recipient, each under the display form of the id, and the display forms of the
recipients are pairwise distinct, `sendPushToHttp` builds a document whose
`recipients` mapping has one entry per recipient, keyed by the display form,
holding the profile under `user` and the descriptor of the receipt under
`device`. -/
theorem recipients_of_complete_directory (env : Env) (marshal : Document → String)
    (msg : Receipt) (url : String)
    (hdistinct : ((env.usersGetAll (recipientsIds msg)).map User.Id).Nodup)
    (hfound : ∀ p ∈ msg.To, ∃ r ∈ env.usersGetAll (recipientsIds msg),
      r.Id = env.uidString p.1)
    (honly : ∀ r ∈ env.usersGetAll (recipientsIds msg), ∃ p ∈ msg.To,
      r.Id = env.uidString p.1)
    (hkeys : (msg.To.map (fun p => env.uidString p.1)).Nodup) :
    ∃ d, (sendPushToHttp env marshal msg url).document = some d ∧
      (mapKeys d.recipients).Perm (msg.To.map (fun p => env.uidString p.1)) ∧
      (mapKeys d.recipients).length = msg.To.length ∧
      ∀ p ∈ msg.To, ∃ r ∈ env.usersGetAll (recipientsIds msg), r.Id = env.uidString p.1 ∧
        mapGet d.recipients (env.uidString p.1)
          = some [("user", Val.user r), ("device", Val.device p.2)] := by
  have hentries := userEntries_eq _ hdistinct
  have hkeys0 : mapKeys (userEntries (env.usersGetAll (recipientsIds msg)))
      = (env.usersGetAll (recipientsIds msg)).map User.Id := by
    rw [hentries]; simp [mapKeys]
  obtain ⟨out, hout, hkout, hin, _⟩ :=
    attachDevices_spec env msg.To (userEntries (env.usersGetAll (recipientsIds msg)))
      (by
        intro p hp
        obtain ⟨r, hr, hid⟩ := hfound p hp
        rw [hkeys0, ← hid]
        exact List.mem_map_of_mem User.Id hr)
      hkeys
  have hperm : (mapKeys out).Perm (msg.To.map (fun p => env.uidString p.1)) := by
    rw [hkout, hkeys0]
    refine (List.perm_ext_iff_of_nodup hdistinct hkeys).mpr ?_
    intro k
    constructor
    · intro hk
      obtain ⟨r, hr, rfl⟩ := List.mem_map.mp hk
      obtain ⟨p, hp, hid⟩ := honly r hr
      rw [hid]
      exact List.mem_map_of_mem (fun p => env.uidString p.1) hp
    · intro hk
      obtain ⟨p, hp, rfl⟩ := List.mem_map.mp hk
      obtain ⟨r, hr, hid⟩ := hfound p hp
      simp only [← hid]
      exact List.mem_map_of_mem User.Id hr
  have hdoc : ∃ d, (sendPushToHttp env marshal msg url).document = some d ∧
      d.recipients = out := by
    unfold sendPushToHttp
    simp only [hout]
    split
    · exact ⟨_, rfl, rfl⟩
    · split <;> exact ⟨_, rfl, rfl⟩
  obtain ⟨d, hd, hrec⟩ := hdoc
  refine ⟨d, hd, hrec ▸ hperm, ?_, ?_⟩
  · rw [hrec, hperm.length_eq]; simp
  · intro p hp
    obtain ⟨r, hr, hid⟩ := hfound p hp
    refine ⟨r, hr, hid, ?_⟩
    rw [hrec, hin p hp, hentries, ← hid, mapGet_userEntries _ hdistinct r hr]
    simp [mapSet]

theorem recipients_of_complete_directory_sample :
    ∃ d, (sendPushToHttp sampleEnv sampleMarshal sampleReceipt "http://x").document = some d ∧
      (mapKeys d.recipients).length = 2 ∧
      mapGet d.recipients "u7"
        = some [("user", Val.user ⟨"u7", 7⟩), ("device", Val.device ⟨70⟩)] := by
  obtain ⟨d, hd, _, hlen, hall⟩ :=
    recipients_of_complete_directory sampleEnv sampleMarshal sampleReceipt "http://x"
      (by decide) (by decide) (by decide) (by decide)
  refine ⟨d, hd, hlen, ?_⟩
  obtain ⟨r, hr, hid, hget⟩ := hall (7, ⟨70⟩) (by decide)
  have hr7 : r = ⟨"u7", 7⟩ := by
    have hl : sampleEnv.usersGetAll (recipientsIds sampleReceipt)
        = [⟨"u5", 5⟩, ⟨"u7", 7⟩] := by
      decide
    rw [hl] at hr
    rcases List.mem_cons.mp hr with h | h
    · subst h; exact absurd hid (by decide)
    · exact List.mem_singleton.mp h
  subst hr7
  exact hget

/-- C7 (evaluation at the failing input): for a receipt to the users 5 and 6,
when the directory returns a profile for 5 only, building the `recipients`
mapping panics on the assignment of the device of 6 into a nil map; no
document is built and nothing is posted. -/
theorem recipients_panics_on_missing_profile :
    sampleEnv.usersGetAll (recipientsIds orphanReceipt) = [⟨"u5", 5⟩] ∧
      (sendPushToHttp sampleEnv sampleMarshal orphanReceipt "http://x").outcome
        = Outcome.panicked "assignment to entry in nil map" ∧
      (sendPushToHttp sampleEnv sampleMarshal orphanReceipt "http://x").document = none ∧
      (sendPushToHttp sampleEnv sampleMarshal orphanReceipt "http://x").posted = none := by
  decide

/-! ## The payload -/

theorem digitChar_facts (k : Nat) (hk : k < 10) :
    (Nat.digitChar k).isDigit = true ∧ digitVal (Nat.digitChar k) = k ∧
      Nat.digitChar k ≠ '-' := by
  interval_cases k <;> decide

theorem toDigitsCore_all_digits (fuel : Nat) :
    ∀ (n : Nat) (ds : List Char), ds.all Char.isDigit = true →
      (Nat.toDigitsCore 10 fuel n ds).all Char.isDigit = true := by
  induction fuel with
  | zero => intro n ds hds; simpa [Nat.toDigitsCore] using hds
  | succ fuel ih =>
    intro n ds hds
    have hd := (digitChar_facts (n % 10) (Nat.mod_lt _ (by decide))).1
    have hcons : (Nat.digitChar (n % 10) :: ds).all Char.isDigit = true := by
      simp only [List.all_cons, hd, hds, Bool.and_self]
    unfold Nat.toDigitsCore
    simp only []
    split
    · exact hcons
    · exact ih _ _ hcons

theorem toDigitsCore_ne_nil (fuel n : Nat) (ds : List Char) :
    Nat.toDigitsCore 10 (fuel + 1) n ds ≠ [] := by
  induction fuel generalizing n ds with
  | zero =>
    rw [Nat.toDigitsCore]
    split
    · simp
    · simp [Nat.toDigitsCore]
  | succ fuel ih =>
    rw [Nat.toDigitsCore]
    split
    · simp
    · exact ih _ _

theorem toDigitsCore_value (fuel : Nat) :
    ∀ (n : Nat) (ds : List Char), n < fuel →
      (Nat.toDigitsCore 10 fuel n ds).foldl (fun a c => a * 10 + digitVal c) 0
        = ds.foldl (fun a c => a * 10 + digitVal c) n := by
  induction fuel with
  | zero => intro n ds h; exact absurd h (Nat.not_lt_zero _)
  | succ fuel ih =>
    intro n ds hn
    have hv := (digitChar_facts (n % 10) (Nat.mod_lt _ (by decide))).2.1
    rw [Nat.toDigitsCore]
    split
    · rename_i h0
      have hlt : n < 10 := by omega
      rw [Nat.mod_eq_of_lt hlt] at hv ⊢
      simp only [List.foldl_cons, hv, Nat.zero_mul, Nat.zero_add]
    · rename_i h0
      have hlt : n / 10 < fuel := by omega
      rw [ih _ _ hlt]
      simp only [List.foldl_cons, hv]
      congr 1
      omega

theorem parseDigits_toDigits (n : Nat) : parseDigits (Nat.toDigits 10 n) = some n := by
  have hall : (Nat.toDigits 10 n).all Char.isDigit = true :=
    toDigitsCore_all_digits _ _ _ (by simp)
  have hne : Nat.toDigits 10 n ≠ [] := toDigitsCore_ne_nil _ _ _
  have hval := toDigitsCore_value (n + 1) n [] (Nat.lt_succ_self n)
  unfold parseDigits
  rw [if_pos ⟨hne, hall⟩]
  simp only [Nat.toDigits, hval, List.foldl_nil]

theorem toDigits_head_ne_minus (n : Nat) (cs : List Char) :
    Nat.toDigits 10 n ≠ '-' :: cs := by
  intro h
  have hall : (Nat.toDigits 10 n).all Char.isDigit = true :=
    toDigitsCore_all_digits _ _ _ (by simp)
  rw [h] at hall
  simp at hall

theorem Atoi_Itoa (i : Int) : Atoi (Itoa i) = some i := by
  unfold Itoa
  by_cases hneg : i < 0
  · simp only [hneg, if_true, Atoi, parseDigits_toDigits, Option.map_some']
    congr 1
    show -(i.natAbs : Int) = i
    omega
  · simp only [hneg, if_false, Atoi]
    split
    · rename_i cs h
      exact absurd h (toDigits_head_ne_minus _ _)
    · simp only [parseDigits_toDigits, Option.map_some']
      congr 1
      show (i.natAbs : Int) = i
      omega

theorem Itoa_eq_toString (i : Int) : Itoa i = toString i := by
  cases i with
  | ofNat n => simp [Itoa]; rfl
  | negSucc n => simp [Itoa, Int.negSucc_lt_zero]; rfl

theorem document_of_sendPushToHttp (env : Env) (marshal : Document → String)
    (msg : Receipt) (url : String) (d : Document)
    (hd : (sendPushToHttp env marshal msg url).document = some d) :
    d.head = msg.Payload.Head ∧ d.payload = messagePayload env msg.Payload ∧
      d.sender = env.usersGet (env.parseUserId msg.Payload.From) := by
  unfold sendPushToHttp at hd
  simp only [] at hd
  split at hd
  · simp at hd
  · split at hd
    · simp only [Option.some.injEq] at hd
      subst hd
      exact ⟨rfl, rfl, rfl⟩
    · split at hd <;>
      · simp only [Option.some.injEq] at hd
        subst hd
        exact ⟨rfl, rfl, rfl⟩

/-- C8: for every payload, `messagePayload` returns a mapping with exactly the
six keys topic, from, ts, seq, mime and content; `seq` is the decimal rendering
of the sequence id, and reading that rendering back as an integer gives the
sequence id, for every integer; `mime` is the content type unchanged. Every
document that `sendPushToHttp` builds has the metadata mapping of the payload as
its `head` and the mapping of `messagePayload` as its `payload`. -/
theorem messagePayload_fields (env : Env) (payload : Payload) (marshal : Document → String)
    (msg : Receipt) (url : String) :
    mapKeys (messagePayload env payload) = ["topic", "from", "ts", "seq", "mime", "content"] ∧
      mapGet (messagePayload env payload) "seq" = some (Itoa payload.SeqId) ∧
      Atoi (Itoa payload.SeqId) = some payload.SeqId ∧
      mapGet (messagePayload env payload) "mime" = some payload.ContentType ∧
      (∀ d, (sendPushToHttp env marshal msg url).document = some d →
        d.head = msg.Payload.Head ∧ d.payload = messagePayload env msg.Payload) := by
  refine ⟨?_, ?_, Atoi_Itoa _, ?_, ?_⟩
  · simp [messagePayload, mapSet, mapKeys]
  · simp [messagePayload, mapSet, mapGet]
  · simp [messagePayload, mapSet, mapGet]
  · intro d hd
    have h := document_of_sendPushToHttp env marshal msg url d hd
    exact ⟨h.1, h.2.1⟩

theorem messagePayload_fields_witness :
    ∃ d, (sendPushToHttp sampleEnv sampleMarshal sampleReceipt "http://x").document = some d ∧
      d.head = [("k", "v")] ∧
      mapGet d.payload "seq" = some "12" ∧
      Atoi (Itoa (-42)) = some (-42) :=
  ⟨_, rfl,
   ((messagePayload_fields sampleEnv sampleReceipt.Payload sampleMarshal sampleReceipt
      "http://x").2.2.2.2 _ rfl).1,
   by decide,
   (messagePayload_fields sampleEnv { sampleReceipt.Payload with SeqId := -42 } sampleMarshal
      sampleReceipt "http://x").2.2.1⟩

end PushHttp

namespace HdlGrpc

/-! ## The outbound send operation -/

/-- C4 (as stated, refuted): on a session whose transport handle is already
cleared, `grpcWrite` of a message that is not a `*pbx.ServerMsg` returns nil
normally: it does not panic, and the message is dropped without a send. -/
theorem grpcWrite_cleared_handle_drops :
    closedWorld.sess.grpcnode = none ∧
      (grpcWrite closedWorld (Msg.other 0) none).2 = .ok none ∧
      (grpcWrite closedWorld (Msg.other 0) none).1.sent = [] := by
  exact ⟨rfl, rfl, rfl⟩

/-- C4 (amended): on a session whose transport handle is present, `grpcWrite`
panics without sending for every message that is not a `*pbx.ServerMsg`, and
hands a `*pbx.ServerMsg` to the transport, returning what `Send` returns. On a
session whose handle is already cleared it returns nil without sending and
without panicking, whatever the type of the message. -/
theorem grpcWrite_type_mismatch (w : World) (msg : Msg) (sendErr : Option String) :
    ((∀ m, msg ≠ Msg.serverMsg m) → w.sess.grpcnode ≠ none →
        grpcWrite w msg sendErr = (w, .error typeAssertionPanic)) ∧
      (w.sess.grpcnode = none → grpcWrite w msg sendErr = (w, .ok none)) ∧
      (∀ m, msg = Msg.serverMsg m → w.sess.grpcnode ≠ none →
        grpcWrite w msg sendErr = ({ w with sent := w.sent ++ [m] }, .ok sendErr)) := by
  refine ⟨?_, ?_, ?_⟩
  · intro hmsg hnode
    cases hg : w.sess.grpcnode with
    | none => exact absurd hg hnode
    | some out =>
      cases msg with
      | serverMsg m => exact absurd rfl (hmsg m)
      | nil => simp [grpcWrite, hg]
      | other tag => simp [grpcWrite, hg]
  · intro hnode
    simp [grpcWrite, hnode]
  · intro m hm hnode
    subst hm
    cases hg : w.sess.grpcnode with
    | none => exact absurd hg hnode
    | some out => simp [grpcWrite, hg]

theorem grpcWrite_type_mismatch_witness :
    grpcWrite sampleWorld (Msg.other 0) none = (sampleWorld, .error typeAssertionPanic) ∧
      grpcWrite sampleWorld Msg.nil none = (sampleWorld, .error typeAssertionPanic) ∧
      grpcWrite closedWorld (Msg.serverMsg 4) none = (closedWorld, .ok none) ∧
      grpcWrite closedWorld (Msg.other 0) none = (closedWorld, .ok none) ∧
      (grpcWrite sampleWorld (Msg.serverMsg 4) (some "EOF")).1.sent = [4] :=
  ⟨(grpcWrite_type_mismatch sampleWorld (Msg.other 0) none).1 (by intro m h; cases h)
      (by decide),
   (grpcWrite_type_mismatch sampleWorld Msg.nil none).1 (by intro m h; cases h)
      (by decide),
   (grpcWrite_type_mismatch closedWorld (Msg.serverMsg 4) none).2.1 rfl,
   (grpcWrite_type_mismatch closedWorld (Msg.other 0) none).2.1 rfl,
   by decide⟩

/-! ## The write task -/

theorem grpcWrite_sess (w : World) (msg : Msg) (sendErr : Option String) :
    (grpcWrite w msg sendErr).1.sess = w.sess := by
  unfold grpcWrite
  split
  · split <;> rfl
  · rfl

theorem closeGrpc_proto (w : World) : (closeGrpc w).sess.proto = w.sess.proto := by
  unfold closeGrpc
  split <;> rfl

theorem closeGrpc_node (w : World) :
    (closeGrpc w).sess.grpcnode = w.sess.grpcnode ∨ (closeGrpc w).sess.grpcnode = none := by
  unfold closeGrpc
  split
  · exact Or.inr rfl
  · exact Or.inl rfl

theorem closeGrpc_node_of_grpc (w : World) (h : w.sess.proto = Proto.GRPC) :
    (closeGrpc w).sess.grpcnode = none := by
  simp [closeGrpc, h]

theorem closeGrpc_sent (w : World) : (closeGrpc w).sent = w.sent := by
  unfold closeGrpc
  split <;> rfl

theorem sess_kept {s s0 : Session} (h : s = s0) :
    s.proto = s0.proto ∧ (s.grpcnode = s0.grpcnode ∨ s.grpcnode = none) :=
  ⟨congrArg Session.proto h, Or.inl (congrArg Session.grpcnode h)⟩

/-- The loop never changes the protocol kind of the session, and leaves the
handle as it was or nil. -/
theorem writeLoop_sess (evs : List Ev) :
    ∀ w : World, (writeLoop w evs).1.sess.proto = w.sess.proto ∧
      ((writeLoop w evs).1.sess.grpcnode = w.sess.grpcnode ∨
        (writeLoop w evs).1.sess.grpcnode = none) := by
  induction evs with
  | nil => intro w; exact ⟨rfl, Or.inl rfl⟩
  | cons e rest ih =>
    intro w
    cases e with
    | queueMsg msg sendErr =>
      have hs := grpcWrite_sess w msg sendErr
      rw [writeLoop]
      split
      · rename_i h; rw [h] at hs; exact sess_kept hs
      · rename_i h; rw [h] at hs; exact sess_kept hs
      · rename_i w1 h
        rw [h] at hs
        have hs1 : w1.sess = w.sess := hs
        have h1 := ih w1
        rw [hs1] at h1
        exact h1
    | queueClosed => exact ⟨rfl, Or.inl rfl⟩
    | stop msg sendErr =>
      have hs := grpcWrite_sess w msg sendErr
      rw [writeLoop]
      split
      · split
        · rename_i h; rw [h] at hs; exact sess_kept hs
        · rename_i h; rw [h] at hs; exact sess_kept hs
      · exact ⟨rfl, Or.inl rfl⟩
    | detach topic =>
      rw [writeLoop]
      exact ih _
    | readerClosed =>
      rw [writeLoop]
      have h1 := ih (closeGrpc w)
      rw [closeGrpc_proto] at h1
      refine ⟨h1.1, ?_⟩
      rcases h1.2 with h2 | h2
      · rcases closeGrpc_node w with h3 | h3
        · exact Or.inl (h2.trans h3)
        · exact Or.inr (h2.trans h3)
      · exact Or.inr h2

theorem writeLoop_terminates (evs : List Ev) :
    ∀ w : World, (∃ e ∈ evs, e = Ev.queueClosed ∨ ∃ m s, e = Ev.stop m s) →
      (writeLoop w evs).2.terminated = true := by
  induction evs with
  | nil => intro w h; simp at h
  | cons e rest ih =>
    intro w h
    have hrest : (∀ m s, e ≠ Ev.stop m s) → e ≠ Ev.queueClosed →
        ∃ e ∈ rest, e = Ev.queueClosed ∨ ∃ m s, e = Ev.stop m s := by
      intro hs hc
      obtain ⟨e1, he, hprop⟩ := h
      rcases List.mem_cons.mp he with rfl | hmem
      · rcases hprop with h1 | ⟨m, s, h1⟩
        · exact absurd h1 hc
        · exact absurd h1 (hs m s)
      · exact ⟨e1, hmem, hprop⟩
    cases e with
    | queueMsg msg sendErr =>
      rw [writeLoop]
      split
      · rfl
      · rfl
      · exact ih _ (hrest (by intro m s h1; cases h1) (by intro h1; cases h1))
    | queueClosed => rfl
    | stop msg sendErr =>
      rw [writeLoop]
      split
      · split <;> rfl
      · rfl
    | detach topic =>
      rw [writeLoop]
      exact ih _ (hrest (by intro m s h1; cases h1) (by intro h1; cases h1))
    | readerClosed =>
      rw [writeLoop]
      exact ih _ (hrest (by intro m s h1; cases h1) (by intro h1; cases h1))

theorem writeLoop_detach (topics : List String) :
    ∀ w : World, (writeLoop w (topics.map Ev.detach)).2 = Exit.waiting ∧
      (writeLoop w (topics.map Ev.detach)).1.sess = w.sess ∧
      (writeLoop w (topics.map Ev.detach)).1.sent = w.sent ∧
      (writeLoop w (topics.map Ev.detach)).1.unsubscribed = w.unsubscribed ++ topics := by
  induction topics with
  | nil => intro w; simp [writeLoop]
  | cons t rest ih =>
    intro w
    simp only [List.map_cons, writeLoop]
    have h := ih { w with unsubscribed := w.unsubscribed ++ [t] }
    refine ⟨h.1, h.2.1, h.2.2.1, ?_⟩
    rw [h.2.2.2]
    simp

theorem writeGrpcLoop_snd (w : World) (evs : List Ev) :
    (writeGrpcLoop w evs).2 = (writeLoop w evs).2 := by
  unfold writeGrpcLoop
  split
  · rename_i h; rw [h]
  · rename_i h; rw [h]

theorem writeGrpcLoop_waiting (w : World) (evs : List Ev)
    (h : (writeLoop w evs).2 = Exit.waiting) :
    writeGrpcLoop w evs = writeLoop w evs := by
  unfold writeGrpcLoop
  split
  · rename_i h1; rw [h1]
  · rename_i w1 e hne h1
    rw [h1] at h
    exact absurd h hne

theorem writeGrpcLoop_terminated (w : World) (evs : List Ev)
    (h : (writeLoop w evs).2.terminated = true) :
    (writeGrpcLoop w evs).1 = closeGrpc (writeLoop w evs).1 := by
  unfold writeGrpcLoop
  split
  · rename_i h1; rw [h1] at h; simp [Exit.terminated] at h
  · rename_i h1; rw [h1]

theorem writeGrpcLoop_sent (w : World) (evs : List Ev) :
    (writeGrpcLoop w evs).1.sent = (writeLoop w evs).1.sent := by
  unfold writeGrpcLoop
  split
  · rename_i h; rw [h]
  · rename_i h; rw [h]; exact closeGrpc_sent _

theorem Exit.waiting_or_terminated (e : Exit) : e = Exit.waiting ∨ e.terminated = true := by
  cases e <;> simp [Exit.terminated]

theorem writeLoop_append (evs more : List Ev) :
    ∀ w : World,
      ((writeLoop w evs).2 = Exit.waiting →
        writeLoop w (evs ++ more) = writeLoop (writeLoop w evs).1 more) ∧
      ((writeLoop w evs).2.terminated = true →
        writeLoop w (evs ++ more) = writeLoop w evs) := by
  induction evs with
  | nil =>
    intro w
    constructor
    · intro _; rfl
    · intro h; simp [writeLoop, Exit.terminated] at h
  | cons e rest ih =>
    intro w
    cases e with
    | queueMsg msg sendErr =>
      simp only [List.cons_append, writeLoop]
      split
      · exact ⟨fun h => (by cases h), fun _ => rfl⟩
      · exact ⟨fun h => (by cases h), fun _ => rfl⟩
      · exact ih _
    | queueClosed => exact ⟨fun h => (by cases h), fun _ => rfl⟩
    | stop msg sendErr =>
      refine ⟨fun h => ?_, fun _ => by simp only [List.cons_append, writeLoop]⟩
      have ht := writeLoop_terminates (Ev.stop msg sendErr :: rest) w
        ⟨_, List.mem_cons_self _ _, Or.inr ⟨_, _, rfl⟩⟩
      rw [h] at ht
      simp [Exit.terminated] at ht
    | detach topic =>
      simp only [List.cons_append, writeLoop]
      exact ih _
    | readerClosed =>
      simp only [List.cons_append, writeLoop]
      exact ih _

/-- With the handle cleared nothing is handed to the transport any more. -/
theorem writeLoop_sent_cleared (evs : List Ev) :
    ∀ w : World, w.sess.grpcnode = none → (writeLoop w evs).1.sent = w.sent := by
  induction evs with
  | nil => intro w _; rfl
  | cons e rest ih =>
    intro w hnode
    cases e with
    | queueMsg msg sendErr =>
      simp only [writeLoop, grpcWrite, hnode]
      exact ih w hnode
    | queueClosed => rfl
    | stop msg sendErr =>
      simp only [writeLoop, grpcWrite, hnode]
      split <;> rfl
    | detach topic =>
      simp only [writeLoop]
      exact ih { w with unsubscribed := w.unsubscribed ++ [topic] } hnode
    | readerClosed =>
      simp only [writeLoop]
      have hc : (closeGrpc w).sess.grpcnode = none := by
        rcases closeGrpc_node w with h | h
        · exact h.trans hnode
        · exact h
      rw [ih (closeGrpc w) hc, closeGrpc_sent]

theorem beforeReaderClose_of_not_mem (evs : List Ev) (h : Ev.readerClosed ∉ evs) :
    beforeReaderClose evs = evs := by
  induction evs with
  | nil => rfl
  | cons e rest ih =>
    have hrest : Ev.readerClosed ∉ rest := fun hm => h (List.mem_cons_of_mem _ hm)
    cases e with
    | readerClosed => exact absurd (List.mem_cons_self _ _) h
    | queueMsg msg sendErr => simp only [beforeReaderClose, ih hrest]
    | queueClosed => simp only [beforeReaderClose, ih hrest]
    | stop msg sendErr => simp only [beforeReaderClose, ih hrest]
    | detach topic => simp only [beforeReaderClose, ih hrest]

theorem writeLoop_sent (evs : List Ev) :
    ∀ w : World, w.sess.grpcnode ≠ none →
      (w.sess.proto = Proto.GRPC ∨ Ev.readerClosed ∉ evs) →
      (writeLoop w evs).1.sent
        = w.sent ++ expectedQueueSends (beforeReaderClose evs)
            ++ expectedFinalSend (beforeReaderClose evs) := by
  induction evs with
  | nil => intro w _ _; simp [writeLoop, beforeReaderClose, expectedQueueSends, expectedFinalSend]
  | cons e rest ih =>
    intro w hnode hlive
    obtain ⟨out, hout⟩ := Option.ne_none_iff_exists'.mp hnode
    have hlive1 : w.sess.proto = Proto.GRPC ∨ Ev.readerClosed ∉ rest := by
      rcases hlive with h | h
      · exact Or.inl h
      · exact Or.inr (fun hm => h (List.mem_cons_of_mem _ hm))
    cases e with
    | queueMsg msg sendErr =>
      cases msg with
      | serverMsg m =>
        cases sendErr with
        | none =>
          have hnode1 : ({ w with sent := w.sent ++ [m] } : World).sess.grpcnode ≠ none := hnode
          have h := ih { w with sent := w.sent ++ [m] } hnode1 hlive1
          simp only [writeLoop, grpcWrite, hout, h]
          simp [beforeReaderClose, expectedQueueSends, expectedFinalSend, Ev.terminating,
            Ev.queued]
        | some err =>
          simp [writeLoop, grpcWrite, hout, beforeReaderClose, expectedQueueSends,
            expectedFinalSend, Ev.terminating]
      | nil =>
        simp [writeLoop, grpcWrite, hout, beforeReaderClose, expectedQueueSends,
          expectedFinalSend, Ev.terminating]
      | other tag =>
        simp [writeLoop, grpcWrite, hout, beforeReaderClose, expectedQueueSends,
          expectedFinalSend, Ev.terminating]
    | queueClosed =>
      simp [writeLoop, beforeReaderClose, expectedQueueSends, expectedFinalSend, Ev.terminating]
    | stop msg sendErr =>
      cases msg <;>
        simp [writeLoop, grpcWrite, hout, beforeReaderClose, expectedQueueSends,
          expectedFinalSend, Ev.terminating]
    | detach topic =>
      have hnode1 :
          ({ w with unsubscribed := w.unsubscribed ++ [topic] } : World).sess.grpcnode ≠ none :=
        hnode
      have h := ih { w with unsubscribed := w.unsubscribed ++ [topic] } hnode1 hlive1
      simp only [writeLoop, h]
      simp [beforeReaderClose, expectedQueueSends, expectedFinalSend, Ev.terminating, Ev.queued]
    | readerClosed =>
      have hproto : w.sess.proto = Proto.GRPC := by
        rcases hlive with h | h
        · exact h
        · exact absurd (List.mem_cons_self _ _) h
      simp only [writeLoop]
      rw [writeLoop_sent_cleared rest (closeGrpc w) (closeGrpc_node_of_grpc w hproto),
        closeGrpc_sent]
      simp [beforeReaderClose, expectedQueueSends, expectedFinalSend]

/-- C5: for every session (only a gRPC session holding a stream) and every
sequence of write-loop events, with the read task clearing the handle at any
point or not at all, once the write task is over (by return on a closed queue,
on a send error or on a stop, or by the panic of a send) the transport handle
is nil; a closed queue or a stop among the events does end the task. A run of
detach events alone leaves the task waiting in its loop and the session, its
handle included, as it was. -/
theorem writeGrpcLoop_clears_handle (w : World) (evs : List Ev) (topics : List String)
    (hwf : w.sess.wellFormed) :
    ((writeGrpcLoop w evs).2.terminated = true →
        (writeGrpcLoop w evs).1.sess.grpcnode = none) ∧
      ((∃ e ∈ evs, e = Ev.queueClosed ∨ ∃ m s, e = Ev.stop m s) →
        (writeGrpcLoop w evs).2.terminated = true) ∧
      (writeGrpcLoop w (topics.map Ev.detach)).2 = Exit.waiting ∧
      (writeGrpcLoop w (topics.map Ev.detach)).1.sess = w.sess := by
  refine ⟨?_, ?_, ?_, ?_⟩
  · intro hterm
    rw [writeGrpcLoop_snd] at hterm
    rw [writeGrpcLoop_terminated w evs hterm]
    have hs := writeLoop_sess evs w
    by_cases hproto : w.sess.proto = Proto.GRPC
    · exact closeGrpc_node_of_grpc _ (hs.1.trans hproto)
    · have hnone : w.sess.grpcnode = none := by
        by_contra hne
        exact hproto (hwf hne)
      have h1 : (writeLoop w evs).1.sess.grpcnode = none := by
        rcases hs.2 with h | h
        · exact h.trans hnone
        · exact h
      rcases closeGrpc_node (writeLoop w evs).1 with h | h
      · exact h.trans h1
      · exact h
  · intro h
    rw [writeGrpcLoop_snd]
    exact writeLoop_terminates evs w h
  · rw [writeGrpcLoop_snd]
    exact (writeLoop_detach topics w).1
  · rw [writeGrpcLoop_waiting w _ (writeLoop_detach topics w).1]
    exact (writeLoop_detach topics w).2.1

theorem writeGrpcLoop_clears_handle_witness :
    sampleWorld.sess.grpcnode = some 1 ∧
      (writeGrpcLoop sampleWorld
        [Ev.queueMsg (Msg.serverMsg 1) none, Ev.detach "t", Ev.queueClosed]).1.sess.grpcnode
        = none ∧
      (writeGrpcLoop sampleWorld
        [Ev.queueMsg (Msg.serverMsg 1) (some "EOF")]).1.sess.grpcnode = none ∧
      (writeGrpcLoop sampleWorld [Ev.stop Msg.nil none]).1.sess.grpcnode = none ∧
      (writeGrpcLoop sampleWorld [Ev.stop (Msg.other 3) none]).1.sess.grpcnode = none ∧
      (writeGrpcLoop websockWorld [Ev.queueClosed]).1.sess.grpcnode = none ∧
      (writeGrpcLoop sampleWorld [Ev.detach "a", Ev.detach "b"]).1.sess.grpcnode = some 1 :=
  ⟨rfl,
   (writeGrpcLoop_clears_handle sampleWorld
      [Ev.queueMsg (Msg.serverMsg 1) none, Ev.detach "t", Ev.queueClosed] []
      (by decide)).1 (by decide),
   (writeGrpcLoop_clears_handle sampleWorld
      [Ev.queueMsg (Msg.serverMsg 1) (some "EOF")] [] (by decide)).1 (by decide),
   (writeGrpcLoop_clears_handle sampleWorld [Ev.stop Msg.nil none] []
      (by decide)).1 (by decide),
   (writeGrpcLoop_clears_handle sampleWorld [Ev.stop (Msg.other 3) none] []
      (by decide)).1 (by decide),
   (writeGrpcLoop_clears_handle websockWorld [Ev.queueClosed] []
      (by decide)).1 (by decide),
   congrArg Session.grpcnode
     (writeGrpcLoop_clears_handle sampleWorld [] ["a", "b"] (by decide)).2.2.2⟩

theorem stated_eq_expected_of_canonical (evs : List Ev)
    (hcan : ∀ e ∈ evs, ∀ msg s, e = Ev.queueMsg msg s → ∃ m, msg = Msg.serverMsg m) :
    statedQueueSends evs = (expectedQueueSends evs).map Msg.serverMsg := by
  induction evs with
  | nil => rfl
  | cons e rest ih =>
    have hrest := ih (fun e he => hcan e (List.mem_cons_of_mem _ he))
    unfold statedQueueSends expectedQueueSends at hrest ⊢
    cases e with
    | queueMsg msg sendErr =>
      obtain ⟨m, rfl⟩ := hcan _ (List.mem_cons_self _ _) msg sendErr rfl
      cases sendErr with
      | none =>
        have ha : Ev.terminatingAsStated (Ev.queueMsg (Msg.serverMsg m) none) = false := rfl
        have hb : Ev.terminating (Ev.queueMsg (Msg.serverMsg m) none) = false := rfl
        have hq : Ev.queuedAny (Ev.queueMsg (Msg.serverMsg m) none)
            = some (Msg.serverMsg m) := rfl
        have hp : Ev.queued (Ev.queueMsg (Msg.serverMsg m) none) = some m := rfl
        simp only [List.takeWhile_cons, List.dropWhile_cons, ha, hb, hq, hp, Bool.not_false,
          if_true, List.filterMap_cons, List.cons_append, hrest, List.map_cons]
      | some err =>
        have ha : Ev.terminatingAsStated (Ev.queueMsg (Msg.serverMsg m) (some err)) = true := rfl
        have hb : Ev.terminating (Ev.queueMsg (Msg.serverMsg m) (some err)) = true := rfl
        simp [List.takeWhile_cons, List.dropWhile_cons, ha, hb]
    | queueClosed =>
      have ha : Ev.terminatingAsStated Ev.queueClosed = true := rfl
      have hb : Ev.terminating Ev.queueClosed = true := rfl
      simp [List.takeWhile_cons, List.dropWhile_cons, ha, hb]
    | stop msg sendErr =>
      have ha : Ev.terminatingAsStated (Ev.stop msg sendErr) = true := rfl
      have hb : Ev.terminating (Ev.stop msg sendErr) = true := rfl
      simp [List.takeWhile_cons, List.dropWhile_cons, ha, hb]
    | detach topic =>
      have ha : Ev.terminatingAsStated (Ev.detach topic) = false := rfl
      have hb : Ev.terminating (Ev.detach topic) = false := rfl
      have hq : Ev.queuedAny (Ev.detach topic) = none := rfl
      have hp : Ev.queued (Ev.detach topic) = none := rfl
      simp only [List.takeWhile_cons, List.dropWhile_cons, ha, hb, hq, hp, Bool.not_false,
        if_true, List.filterMap_cons, hrest]
    | readerClosed =>
      have ha : Ev.terminatingAsStated Ev.readerClosed = false := rfl
      have hb : Ev.terminating Ev.readerClosed = false := rfl
      have hq : Ev.queuedAny Ev.readerClosed = none := rfl
      have hp : Ev.queued Ev.readerClosed = none := rfl
      simp only [List.takeWhile_cons, List.dropWhile_cons, ha, hb, hq, hp, Bool.not_false,
        if_true, List.filterMap_cons, hrest]

/-- C6 (as stated, refuted): with the transport handle present at the start, a
queue message that is not a `*pbx.ServerMsg` makes the write task panic, so the
canonical message queued after it never reaches the transport, although no
queue-closed event, stop or send error comes before it. Likewise, once the read
task has cleared the handle, the canonical message taken next is dropped
without a send, again before any terminating event. -/
theorem writeGrpcLoop_panic_cuts_queue :
    sampleWorld.sess.grpcnode = some 1 ∧
      (writeGrpcLoop sampleWorld mixedQueue).1.sent = [1] ∧
      statedQueueSends mixedQueue = [Msg.serverMsg 1, Msg.other 0, Msg.serverMsg 2] ∧
      (writeGrpcLoop sampleWorld mixedQueue).1.sent.map Msg.serverMsg
        ≠ statedQueueSends mixedQueue ∧
      (writeGrpcLoop sampleWorld mixedQueue).2 = Exit.panicked typeAssertionPanic ∧
      (writeGrpcLoop sampleWorld droppedQueue).1.sent = [1] ∧
      statedQueueSends droppedQueue = [Msg.serverMsg 1, Msg.serverMsg 2] ∧
      (writeGrpcLoop sampleWorld droppedQueue).2 = Exit.returned := by
  decide

/-- C6 (amended): for every session whose transport handle is present and every
sequence of write-loop events, the messages handed to the transport are, in
enqueue order and once each, the queue messages taken while the handle is still
present and before the first terminating event, where the terminating events
are a closed queue, a stop, a send that returns an error (its message is the
last one handed over) and a queue message that is not a `*pbx.ServerMsg` (the
task panics and the message is not handed over); they are followed only by the
final message of a terminating stop. Queue messages taken after the read task
has cleared the handle are dropped without a send. After a queue-closed event
the task is over and has sent nothing more than before that event. -/
theorem writeGrpcLoop_sends_in_order (w : World) (evs post : List Ev)
    (hnode : w.sess.grpcnode ≠ none) :
    (Ev.readerClosed ∉ evs →
        (writeGrpcLoop w evs).1.sent
          = w.sent ++ expectedQueueSends evs ++ expectedFinalSend evs) ∧
      (w.sess.wellFormed →
        (writeGrpcLoop w evs).1.sent
          = w.sent ++ expectedQueueSends (beforeReaderClose evs)
              ++ expectedFinalSend (beforeReaderClose evs)) ∧
      (writeGrpcLoop w (evs ++ Ev.queueClosed :: post)).2.terminated = true ∧
      (writeGrpcLoop w (evs ++ Ev.queueClosed :: post)).1.sent
        = (writeGrpcLoop w evs).1.sent := by
  refine ⟨?_, ?_, ?_, ?_⟩
  · intro hlive
    rw [writeGrpcLoop_sent, writeLoop_sent evs w hnode (Or.inr hlive),
      beforeReaderClose_of_not_mem evs hlive]
  · intro hwf
    rw [writeGrpcLoop_sent]
    exact writeLoop_sent evs w hnode (Or.inl (hwf hnode))
  · rw [writeGrpcLoop_snd]
    exact writeLoop_terminates _ w ⟨Ev.queueClosed, by simp, Or.inl rfl⟩
  · rw [writeGrpcLoop_sent, writeGrpcLoop_sent]
    rcases Exit.waiting_or_terminated (writeLoop w evs).2 with h | h
    · rw [(writeLoop_append evs (Ev.queueClosed :: post) w).1 h]
      rfl
    · rw [(writeLoop_append evs (Ev.queueClosed :: post) w).2 h]

theorem writeGrpcLoop_sends_in_order_witness :
    (writeGrpcLoop sampleWorld
        [Ev.queueMsg (Msg.serverMsg 1) none, Ev.detach "t", Ev.queueMsg (Msg.serverMsg 2) none,
         Ev.queueClosed, Ev.queueMsg (Msg.serverMsg 3) none]).1.sent = [1, 2] ∧
      (writeGrpcLoop sampleWorld
        [Ev.queueMsg (Msg.serverMsg 1) none, Ev.queueMsg (Msg.serverMsg 2) (some "EOF"),
         Ev.queueMsg (Msg.serverMsg 3) none]).1.sent = [1, 2] ∧
      (writeGrpcLoop sampleWorld droppedQueue).1.sent = [1] :=
  ⟨(writeGrpcLoop_sends_in_order sampleWorld
      [Ev.queueMsg (Msg.serverMsg 1) none, Ev.detach "t", Ev.queueMsg (Msg.serverMsg 2) none,
       Ev.queueClosed, Ev.queueMsg (Msg.serverMsg 3) none] [] (by decide)).1 (by decide),
   (writeGrpcLoop_sends_in_order sampleWorld
      [Ev.queueMsg (Msg.serverMsg 1) none, Ev.queueMsg (Msg.serverMsg 2) (some "EOF"),
       Ev.queueMsg (Msg.serverMsg 3) none] [] (by decide)).1 (by decide),
   (writeGrpcLoop_sends_in_order sampleWorld droppedQueue [] (by decide)).2.1 (by decide)⟩

end HdlGrpc
